import Mathlib

/-!
# Verification of the mnemonic-to-BRC100 address-discovery-and-sweep pipeline

Shallow embedding of the core of `src/App.tsx`: the gap-limited HD address
scanner (`generateAddresses`), the registry merge, and the sweep transaction
builder (`createIngestTx`) with its fee gate and two-factor key lookup.

External collaborators (the WhatsOnChain data provider, the HD key deriver of
`@bsv/sdk`, and the BRC-100 wallet custodian) are modelled as oracle
parameters: the data provider as functions from address strings to history and
UTXO lists, key derivation as an uninterpreted function from derivation-path
strings to private keys (represented as opaque strings), and the custodian's
call outcomes as fields of a `SweepEnv` record.  Everything the repository's
own code computes (path assembly and apostrophe normalization, the scan loop,
balance computation, the registry merge, the key-for-input map, the fee-rate
gate, per-input key resolution, and the registry-clearing control flow) is
translated directly from the TypeScript.
-/

namespace MnemonicSweep

/-- One element of the WhatsOnChain `unspent/all` result, the `wocUTXO`
interface of `App.tsx` (the `height` field plays no role in the core logic and
is omitted; `value` is a satoshi amount). -/
structure WocUTXO where
  tx_pos : Nat
  tx_hash : String
  value : Nat
  isSpentInMempoolTx : Bool
deriving Repr, DecidableEq

/-- The `Result` interface of `App.tsx`: one Discovered Address Entry of the
Funded-Address Registry.  `utxos` models `utxos.result`, the raw list stored by
the scanner. -/
structure Result where
  index : Nat
  address : String
  balance : Nat
  count : Nat
  utxos : List WocUTXO
  pathPrefix : String
deriving Repr, DecidableEq

/-- The ASCII apostrophe `'` (U+0027), the canonical hardened-path marker. -/
def apostrophe : Char := Char.ofNat 39

/-- The right single quotation mark `’` (U+2019), the one variant character
the source normalizes. -/
def rightSingleQuote : Char := Char.ofNat 0x2019

/-- The left single quotation mark `‘` (U+2018), another variant quote
character a user may paste from rich text. -/
def leftSingleQuote : Char := Char.ofNat 0x2018

/-- Embeds the TypeScript `s.replace(/’\x2f g, "'")` (a global single-character
replacement, hence a character-wise map): every U+2019 becomes the ASCII
apostrophe, all other characters are left as they are. -/
def normalizeApostrophes (s : String) : String :=
  String.mk (s.data.map (fun c => if c = rightSingleQuote then apostrophe else c))

/-- Path assembly used identically at `App.tsx:102` (discovery) and
`App.tsx:172` (sweep-time re-derivation): the template literal
`${pathPrefix}\x2f${index}` followed by the apostrophe normalization. -/
def fullPath (pathPrefix : String) (index : Nat) : String :=
  normalizeApostrophes (pathPrefix ++ "/" ++ toString index)

/-- Oracle for the discovery phase: address derivation (the composition of
`masterKey.derive`, `privKey.toPublicKey` and `toAddress` at `App.tsx:103-106`,
uninterpreted) and the two WhatsOnChain queries, keyed by address string. -/
structure ScanEnv where
  deriveAddress : String → String
  history : String → List String
  utxos : String → List WocUTXO

/-- The address derived for a given index, `App.tsx:102-106`. -/
def addressAt (env : ScanEnv) (pathPrefix : String) (index : Nat) : String :=
  env.deriveAddress (fullPath pathPrefix index)

/-- `App.tsx:113`: an address is used when its history has `length > 0`. -/
def isUsed (env : ScanEnv) (pathPrefix : String) (index : Nat) : Bool :=
  (env.history (addressAt env pathPrefix index)).length > 0

/-- `App.tsx:121`: `utxos.result.reduce((sum, utxo) => sum + utxo.value, 0)` —
the balance sums the values of ALL returned outputs (no filtering of outputs
flagged `isSpentInMempoolTx`). -/
def sumValues (l : List WocUTXO) : Nat :=
  l.foldl (fun sum u => sum + u.value) 0

/-- The entry pushed onto `usedResults` for one index, when any
(`App.tsx:115-123`): `some` exactly when the address is used and the
`unspent/all` result list is non-empty; the stored entry keeps the raw result
list and sums all its values. -/
def recordAt (env : ScanEnv) (pathPrefix : String) (index : Nat) : Option Result :=
  if isUsed env pathPrefix index then
    let result := env.utxos (addressAt env pathPrefix index)
    if result.length > 0 then
      some { index := index
             address := addressAt env pathPrefix index
             balance := sumValues result
             count := result.length
             utxos := result
             pathPrefix := pathPrefix }
    else none
  else none

/-- The error-free `while (consecutiveUnused < consecutiveUnusedGap)` loop of
`generateAddresses` (`App.tsx:100-133`), with an explicit fuel argument to make
the recursion structural.  Returns the final value of the `index` cursor and
the accumulated `usedResults`. -/
def scanLoop (env : ScanEnv) (pathPrefix : String) (gap : Nat) :
    Nat → Nat → Nat → List Result → Nat × List Result
  | 0, index, _, acc => (index, acc)
  | fuel + 1, index, consecutiveUnused, acc =>
    if consecutiveUnused < gap then
      if isUsed env pathPrefix index then
        let acc' :=
          match recordAt env pathPrefix index with
          | some r => acc ++ [r]
          | none => acc
        scanLoop env pathPrefix gap fuel (index + 1) 0 acc'
      else
        scanLoop env pathPrefix gap fuel (index + 1) (consecutiveUnused + 1) acc
    else (index, acc)

/-- Length of the run of consecutive unused addresses ending just below
`startOffset + k` (and starting no earlier than `startOffset`).  This mirrors
the value of the loop's `consecutiveUnused` counter when the cursor is at
`startOffset + k`. -/
def unusedRun (env : ScanEnv) (pathPrefix : String) (startOffset : Nat) : Nat → Nat
  | 0 => 0
  | k + 1 =>
    if isUsed env pathPrefix (startOffset + k) then 0
    else unusedRun env pathPrefix startOffset k + 1

/-- JS `Set.add` on strings: append if not already present (a JS `Set`
iterates in insertion order, keeping first occurrences). -/
def insertUnique (seen : List String) (a : String) : List String :=
  if a ∈ seen then seen else seen ++ [a]

/-- The insertion-ordered deduplicated address list built at
`App.tsx:136-139`: all addresses of the prior registry, then all newly scanned
addresses, first occurrences kept. -/
def jsSetOfList (l : List String) : List String :=
  l.foldl insertUnique []

/-- The per-address pick of `App.tsx:140`:
`r.find(r => r.address === address) || usedResults.find(r => r.address === address) || undefined`. -/
def mergePick (old new : List Result) (address : String) : Option Result :=
  (old.find? (fun r => r.address == address)).orElse
    (fun _ => new.find? (fun r => r.address == address))

/-- The `setResults` updater of `App.tsx:135-142`: deduplicated address list
(old first, then new), each mapped to the old entry when one exists, otherwise
to the newly scanned entry, dropping `undefined`. -/
def mergeResults (old new : List Result) : List Result :=
  let uniqueAddresses := jsSetOfList (old.map Result.address ++ new.map Result.address)
  uniqueAddresses.filterMap (mergePick old new)

/-- The fee-rate gate of `App.tsx:219-225`: `sats = tx.getFee()` (sum of input
values minus sum of output values, an integer), `size` the transaction's byte
length, `kb = size / 1000`, `satsPerKb = sats / kb`; the sweep aborts when
`sats > 1 && satsPerKb > 10`.  Division is modelled over ℚ; a real serialized
transaction always has `size > 0` (at `size = 0` JS float division yields
Infinity while ℚ division yields 0, so theorems assume `0 < size`). -/
def feeGateAborts (sats : Int) (size : Nat) : Bool :=
  let kb : ℚ := (size : ℚ) / 1000
  let satsPerKb : ℚ := (sats : ℚ) / kb
  decide (1 < sats) && decide ((10 : ℚ) < satsPerKb)

/-- One record of the Key-for-Input Map (`App.tsx:170`): `{vout, privKey,
value}` with the private key represented opaquely as a string. -/
structure KeyEntry where
  vout : Nat
  privKey : String
  value : Nat
deriving Repr, DecidableEq

/-- The Key-for-Input Map `utxosByTxid`, as an insertion-ordered association
list from source transaction id to the list of key entries (JS object string
keys iterate in insertion order for non-integer keys such as 64-digit hex
txids). -/
abbrev KeyMap : Type := List (String × List KeyEntry)

/-- `App.tsx:177-181`: `if (!utxosByTxid[txid]) utxosByTxid[txid] = [];
utxosByTxid[txid].push(...)` — append the entry to the list of an existing
key, or add a fresh singleton binding at the end. -/
def pushEntry : KeyMap → String → KeyEntry → KeyMap
  | [], txid, e => [(txid, [e])]
  | (k, l) :: rest, txid, e =>
    if k = txid then (k, l ++ [e]) :: rest
    else (k, l) :: pushEntry rest txid e

/-- `utxosByTxid[txid]` as a partial lookup: `some` list when the key is
bound, `none` (JS `undefined`) otherwise. -/
def lookupKeyMap (m : KeyMap) (txid : String) : Option (List KeyEntry) :=
  match m with
  | [] => none
  | (k, l) :: rest => if k = txid then some l else lookupKeyMap rest txid

/-- Inner loop of the key-map construction (`App.tsx:176-182`): push one
record per unspent output of a single entry, all sharing that entry's derived
private key. -/
def pushUtxos (m : KeyMap) (privKey : String) (utxos : List WocUTXO) : KeyMap :=
  utxos.foldl (fun m u => pushEntry m u.tx_hash ⟨u.tx_pos, privKey, u.value⟩) m

/-- Body of the outer `results.forEach` of `App.tsx:171-183`: derive the
private key from THIS entry's stored path and index, then push one record per
unspent output. -/
def buildKeyMapStep (derive : String → String) (m : KeyMap) (res : Result) : KeyMap :=
  pushUtxos m (derive (fullPath res.pathPrefix res.index)) res.utxos

/-- The key-map construction of `App.tsx:170-183`.  `derive` is the
uninterpreted `masterKey.derive(·).privKey`; `uiPathPrefix` is the live
session `pathPrefix` state that is in scope in `createIngestTx` — the source
never reads it here (each entry's own stored `res.pathPrefix` and `res.index`
are used instead), so the parameter is unused, which is exactly claim C6. -/
def buildKeyMap (derive : String → String) (uiPathPrefix : String)
    (results : List Result) : KeyMap :=
  results.foldl (buildKeyMapStep derive) []

/-- How a key-resolution failure surfaces (`App.tsx:229-236`): indexing
`utxosByTxid` with an unbound txid gives `undefined`, so the subsequent
`.find` call raises a bare runtime `TypeError`; a bound txid whose list has no
entry for the input's vout raises the explicit
`Failed to find private key for input: txid.vout` error. -/
inductive ResolveError where
  | typeError
  | missingKey (message : String)
deriving Repr, DecidableEq

/-- Per-input signing-key resolution (`App.tsx:230-234`):
`utxosByTxid[txid].find(utxo => utxo.vout === input.sourceOutputIndex)?.privKey`,
throwing when no private key is found. -/
def resolveKeyForInput (m : KeyMap) (txid : String) (vout : Nat) :
    Except ResolveError String :=
  match lookupKeyMap m txid with
  | none => Except.error ResolveError.typeError
  | some lst =>
    match lst.find? (fun u => u.vout == vout) with
    | none => Except.error (ResolveError.missingKey
        ("Failed to find private key for input: " ++ txid ++ "." ++ toString vout))
    | some u => Except.ok u.privKey

/-- Resolve every input of the skeleton transaction in order, stopping at the
first failure (`tx.inputs.forEach` at `App.tsx:229-236`, where a throw aborts
the whole loop). -/
def resolveAllInputs (m : KeyMap) : List (String × Nat) → Except ResolveError (List String)
  | [] => Except.ok []
  | (txid, vout) :: rest =>
    match resolveKeyForInput m txid vout with
    | Except.error e => Except.error e
    | Except.ok k =>
      match resolveAllInputs m rest with
      | Except.error e => Except.error e
      | Except.ok ks => Except.ok (k :: ks)

/-- Outcomes of the external calls made by `createIngestTx`, in program
order: `wallet.isAuthenticated()` (`Except.error` models a thrown connection
error), the BEEF fetches (`beefOk = false` models a rejected `queuedFetch`),
`wallet.createAction` (`none` models either a thrown error or an absent
`signableTransaction`; `some` carries the skeleton transaction's inputs as
(source txid, source output index) pairs together with its fee and byte
size), and `wallet.signAction` (`none` models a throw, `some` the returned
`txid` string, which JS treats as falsy when empty). -/
structure SweepEnv where
  authenticated : Except Unit Bool
  beefOk : Bool
  createActionResult : Option (List (String × Nat) × Int × Nat)
  broadcastTxid : Option String

/-- Observable outcome of one `createIngestTx` invocation. -/
inductive SweepOutcome where
  | earlyReturn
  | errorCaught
  | success (txid : String)
deriving Repr, DecidableEq

/-- `true` exactly on `SweepOutcome.success`. -/
def SweepOutcome.isSuccess : SweepOutcome → Bool
  | success _ => true
  | _ => false

/-- The control flow of `createIngestTx` (`App.tsx:147-274`) as a function
from the external-call outcomes and the current registry to the outcome and
the new registry (the `results` state): early `return` on authentication
failure or an empty registry; inside the `try` block, a BEEF-fetch failure,
an absent `signableTransaction`, a tripped fee gate, a failed key resolution,
or a failed/falsy broadcast all throw into the `catch`, which leaves `results`
untouched; only after a truthy broadcast txid does `setResults([])` run. -/
def createIngestTx (env : SweepEnv) (derive : String → String)
    (uiPathPrefix : String) (results : List Result) :
    SweepOutcome × List Result :=
  match env.authenticated with
  | Except.error _ => (SweepOutcome.earlyReturn, results)
  | Except.ok false => (SweepOutcome.earlyReturn, results)
  | Except.ok true =>
    if results.length = 0 then (SweepOutcome.earlyReturn, results)
    else
      let m := buildKeyMap derive uiPathPrefix results
      if !env.beefOk then (SweepOutcome.errorCaught, results)
      else
        match env.createActionResult with
        | none => (SweepOutcome.errorCaught, results)
        | some (skeletonInputs, sats, size) =>
          if feeGateAborts sats size then (SweepOutcome.errorCaught, results)
          else
            match resolveAllInputs m skeletonInputs with
            | Except.error _ => (SweepOutcome.errorCaught, results)
            | Except.ok _ =>
              match env.broadcastTxid with
              | none => (SweepOutcome.errorCaught, results)
              | some txid =>
                if txid.isEmpty then (SweepOutcome.errorCaught, results)
                else (SweepOutcome.success txid, [])

/-- Membership of a record in the Key-for-Input Map under a given txid key. -/
def MemKeyMap (m : KeyMap) (txid : String) (e : KeyEntry) : Prop :=
  ∃ lst, lookupKeyMap m txid = some lst ∧ e ∈ lst

/-! ## Concrete inputs used by counterexamples and witnesses -/

/-- A registry entry discovered under path prefix `m/1`. -/
def entryP1 : Result := ⟨0, "a1", 5, 1, [⟨0, "tX", 5, false⟩], "m/1"⟩

/-- A registry entry discovered under a different path prefix `n/2`, funded by
the same source transaction `tX` at a different vout. -/
def entryP2 : Result := ⟨2, "a2", 6, 1, [⟨1, "tX", 6, false⟩], "n/2"⟩

/-- A prior-registry entry for address `addrA`, found under prefix `m/44/0`. -/
def oldEntry : Result := ⟨0, "addrA", 10, 1, [⟨0, "tA", 10, false⟩], "m/44/0"⟩

/-- A rescan's conflicting entry for the same address `addrA`, found under a
different prefix with different data. -/
def newEntryA : Result := ⟨3, "addrA", 99, 1, [⟨2, "tC", 99, false⟩], "m/0"⟩

/-- A rescan's entry for a genuinely new address `addrB`. -/
def newEntryB : Result := ⟨4, "addrB", 7, 1, [⟨0, "tD", 7, false⟩], "m/0"⟩

/-- Sweep-call outcomes for a fully successful run. -/
def envSweepOk : SweepEnv :=
  { authenticated := Except.ok true
    beefOk := true
    createActionResult := some ([("tA", 0)], 1, 100)
    broadcastTxid := some "tid" }

/-- Sweep-call outcomes in which the broadcast fails. -/
def envSweepFail : SweepEnv :=
  { authenticated := Except.ok true
    beefOk := true
    createActionResult := some ([("tA", 0)], 1, 100)
    broadcastTxid := none }

/-- A one-entry registry matching the skeleton input (txid `tA`, vout 0). -/
def sweepEntry : Result := ⟨0, "addrA", 10, 1, [⟨0, "tA", 10, false⟩], "m/0"⟩

/-- An unspent output flagged as already spent by a pending (mempool)
transaction. -/
def pendingUtxo : WocUTXO := ⟨0, "t1", 100, true⟩

/-- An unspent output not flagged as mempool-spent. -/
def freshUtxo : WocUTXO := ⟨1, "t1", 50, false⟩

/-- Discovery oracle in which every address is used and the `unspent/all`
query returns one mempool-spent output (value 100) and one fresh output
(value 50). -/
def envC1 : ScanEnv :=
  { deriveAddress := fun p => p
    history := fun _ => ["h"]
    utxos := fun _ => [pendingUtxo, freshUtxo] }

/-- Discovery oracle in which only index 2 is used (with one fresh output):
the last used index L = 2 is preceded by a gap of two unused addresses. -/
def envC5 : ScanEnv :=
  { deriveAddress := fun p => p
    history := fun a => if a = fullPath "m" 2 then ["h"] else []
    utxos := fun a => if a = fullPath "m" 2 then [freshUtxo] else [] }

/-- Discovery oracle in which indices 0 and 1 are used (each with one fresh
output) and everything beyond is unused. -/
def envW : ScanEnv :=
  { deriveAddress := fun p => p
    history := fun a => if a = fullPath "m" 0 ∨ a = fullPath "m" 1 then ["h"] else []
    utxos := fun a =>
      if a = fullPath "m" 0 then [⟨0, "tA", 7, false⟩]
      else if a = fullPath "m" 1 then [⟨1, "tB", 9, false⟩]
      else [] }

/-! ## C2: the fee-rate gate -/

/-- C2: the sweep's fee-rate gate aborts iff the fee exceeds 1 satoshi AND the
rate exceeds 10 sats/kb (equivalently, in division-free form, iff
`10 * size < 1000 * sats`); a transaction at exactly 10.0 sats/kb is never
aborted, and a transaction with fee at most 1 satoshi is never aborted
regardless of rate. -/
theorem feeGate_boundary (sats : Int) (size : Nat) (hsize : 0 < size) :
    (feeGateAborts sats size = true ↔
      1 < sats ∧ (10 : ℚ) < (sats : ℚ) / ((size : ℚ) / 1000))
    ∧ (feeGateAborts sats size = true ↔
      1 < sats ∧ 10 * (size : ℚ) < 1000 * (sats : ℚ))
    ∧ ((sats : ℚ) / ((size : ℚ) / 1000) = 10 → feeGateAborts sats size = false)
    ∧ (sats ≤ 1 → feeGateAborts sats size = false) := by
  have hq : (0 : ℚ) < (size : ℚ) / 1000 := by positivity
  refine ⟨?_, ?_, ?_, ?_⟩
  · simp [feeGateAborts]
  · simp only [feeGateAborts, Bool.and_eq_true, decide_eq_true_eq]
    rw [lt_div_iff₀ hq]
    constructor
    · rintro ⟨h1, h2⟩
      exact ⟨h1, by linarith⟩
    · rintro ⟨h1, h2⟩
      exact ⟨h1, by linarith⟩
  · intro h
    simp [feeGateAborts, h]
  · intro h
    have h1 : decide (1 < sats) = false := decide_eq_false (by omega)
    simp [feeGateAborts, h1]

/-- Witness for C2 at fee = 2 satoshis and size = 200 bytes (exactly 10.0
sats/kb): the gate does not abort. -/
theorem feeGate_boundary_witness :
    0 < 200 ∧ feeGateAborts 2 200 = false := by
  refine ⟨by decide, (feeGate_boundary 2 200 (by decide)).2.2.1 ?_⟩
  norm_num

/-! ## C8: apostrophe normalization -/

/-- C8 counterexample: the left single quotation mark U+2018, a variant quote
character a user may paste from rich text, is NOT normalized to the canonical
ASCII apostrophe — the source's replacement only targets U+2019. -/
theorem apostrophe_normalization_counterexample :
    normalizeApostrophes (String.mk [leftSingleQuote]) = String.mk [leftSingleQuote]
    ∧ leftSingleQuote ≠ apostrophe
    ∧ normalizeApostrophes (String.mk [rightSingleQuote]) = String.mk [apostrophe] := by
  refine ⟨by decide, by decide, by decide⟩

/-- C8 amended: the normalization applied to assembled derivation paths (in
both the discovery and the sweep-time phase, via `fullPath`) replaces exactly
the right single quotation mark U+2019 by the ASCII apostrophe: no U+2019
survives, the length is preserved, and every other character is left in place
unchanged. -/
theorem apostrophe_normalization (s : String) :
    rightSingleQuote ∉ (normalizeApostrophes s).data
    ∧ (normalizeApostrophes s).data.length = s.data.length
    ∧ ∀ i : Nat, (normalizeApostrophes s).data[i]? =
        (s.data[i]?).map (fun c => if c = rightSingleQuote then apostrophe else c) := by
  have hdata : (normalizeApostrophes s).data
      = s.data.map (fun c => if c = rightSingleQuote then apostrophe else c) := rfl
  refine ⟨?_, ?_, ?_⟩
  · intro h
    rw [hdata] at h
    obtain ⟨c, -, hc⟩ := List.mem_map.mp h
    by_cases h1 : c = rightSingleQuote
    · rw [if_pos h1] at hc
      exact absurd hc (by decide)
    · rw [if_neg h1] at hc
      exact h1 hc
  · rw [hdata, List.length_map]
  · intro i
    rw [hdata, List.getElem?_map]

/-- Witness for C8 at the concrete path `m/44’/0` (with a pasted U+2019): the
normalized string contains no U+2019. -/
theorem apostrophe_normalization_witness :
    rightSingleQuote ∉
      (normalizeApostrophes (String.mk [Char.ofNat 109, Char.ofNat 47, rightSingleQuote])).data :=
  (apostrophe_normalization _).1

/-! ## C3: two-factor signing-key lookup -/

/-- C3 counterexample: for an input whose source txid is absent from the
Key-for-Input Map altogether, no entry matches both components, yet the sweep
fails with a bare runtime type error that does not name the (txid, vout) pair
— not with the explicit naming error of `App.tsx:233`. -/
theorem resolve_missing_txid_counterexample :
    resolveKeyForInput [] "aa" 0 = Except.error ResolveError.typeError
    ∧ ResolveError.typeError ≠
        ResolveError.missingKey "Failed to find private key for input: aa.0" := by
  exact ⟨rfl, by decide⟩

/-- C3 amended: key resolution matches on BOTH the source txid and the vout —
a returned key always belongs to an entry whose txid list is the one bound to
the input's txid and whose vout equals the input's vout (so an input with
vout 0 can never receive the key of an entry with vout 1, and no fallback key
is ever used); when the txid is bound but no entry matches the vout, the error
names the exact txid and vout; when the txid is unbound, a bare type error is
raised instead. -/
theorem resolve_two_factor (m : KeyMap) (txid : String) (vout : Nat) :
    (∀ k, resolveKeyForInput m txid vout = Except.ok k →
      ∃ lst e, lookupKeyMap m txid = some lst ∧ e ∈ lst ∧ e.vout = vout ∧ e.privKey = k)
    ∧ (∀ lst, lookupKeyMap m txid = some lst →
      (∀ e ∈ lst, e.vout ≠ vout) →
      resolveKeyForInput m txid vout = Except.error (ResolveError.missingKey
        ("Failed to find private key for input: " ++ txid ++ "." ++ toString vout)))
    ∧ (lookupKeyMap m txid = none →
      resolveKeyForInput m txid vout = Except.error ResolveError.typeError) := by
  refine ⟨?_, ?_, ?_⟩
  · intro k hk
    cases hl : lookupKeyMap m txid with
    | none => simp [resolveKeyForInput, hl] at hk
    | some lst =>
      cases hf : lst.find? (fun u => u.vout == vout) with
      | none => simp [resolveKeyForInput, hl, hf] at hk
      | some u =>
        simp only [resolveKeyForInput, hl, hf, Except.ok.injEq] at hk
        subst hk
        refine ⟨lst, u, rfl, List.mem_of_find?_eq_some hf, ?_, rfl⟩
        simpa using List.find?_some hf
  · intro lst hl hnone
    have hf : lst.find? (fun u => u.vout == vout) = none := by
      rw [List.find?_eq_none]
      intro e he
      simpa using hnone e he
    simp [resolveKeyForInput, hl, hf]
  · intro hl
    simp [resolveKeyForInput, hl]

/-- Witness for C3 on the map binding txid `t` to entries for vout 0 (key
`k0`) and vout 1 (key `k1`): resolving (t, 0) returns `k0` (never `k1`), and
resolving (t, 2) fails with the error naming `t.2`. -/
theorem resolve_two_factor_witness :
    resolveKeyForInput [("t", [⟨0, "k0", 5⟩, ⟨1, "k1", 7⟩])] "t" 0 = Except.ok "k0"
    ∧ resolveKeyForInput [("t", [⟨0, "k0", 5⟩, ⟨1, "k1", 7⟩])] "t" 2
      = Except.error (ResolveError.missingKey
          ("Failed to find private key for input: " ++ "t" ++ "." ++ toString 2)) := by
  refine ⟨by rfl, ?_⟩
  exact (resolve_two_factor [("t", [⟨0, "k0", 5⟩, ⟨1, "k1", 7⟩])] "t" 2).2.1
    [⟨0, "k0", 5⟩, ⟨1, "k1", 7⟩] (by decide) (by decide)

/-! ## C1: pending-spend filtering (a code bug) -/

/-- C1: evaluation of the scanner's recording step at the failing input — an
address whose `unspent/all` list holds one mempool-spent output (value 100)
and one fresh output (value 50).  The code records a Discovered Address Entry
whose balance is 150 (the flagged output is NOT excluded) and whose stored
UTXO list still contains the flagged output, contradicting the repository's
own documentation (`SECURITY_CHECKLIST.md`: `isSpentInMempoolTx check
(line 119)`). -/
theorem pending_spend_not_filtered :
    (recordAt envC1 "m" 0).map Result.balance = some 150
    ∧ (recordAt envC1 "m" 0).map (fun r => r.utxos.any (fun u => u.isSpentInMempoolTx))
      = some true
    ∧ sumValues [freshUtxo] = 50 := by
  refine ⟨by decide, by decide, by decide⟩

/-! ## C6: the Key-for-Input Map derives from each entry's stored path -/

theorem lookup_pushEntry_self (m : KeyMap) (t : String) (e : KeyEntry) :
    lookupKeyMap (pushEntry m t e) t = some ((lookupKeyMap m t).getD [] ++ [e]) := by
  induction m with
  | nil => simp [pushEntry, lookupKeyMap]
  | cons head rest ih =>
    obtain ⟨k, l⟩ := head
    by_cases h : k = t
    · simp [pushEntry, lookupKeyMap, h]
    · simp [pushEntry, lookupKeyMap, h, ih]

theorem lookup_pushEntry_ne (m : KeyMap) (t t' : String) (e : KeyEntry)
    (h : t' ≠ t) : lookupKeyMap (pushEntry m t e) t' = lookupKeyMap m t' := by
  induction m with
  | nil => simp [pushEntry, lookupKeyMap, Ne.symm h]
  | cons head rest ih =>
    obtain ⟨k, l⟩ := head
    by_cases hk : k = t
    · subst hk
      simp [pushEntry, lookupKeyMap, Ne.symm h]
    · simp [pushEntry, lookupKeyMap, hk, ih]

theorem memKeyMap_pushEntry_self (m : KeyMap) (t : String) (e : KeyEntry) :
    MemKeyMap (pushEntry m t e) t e :=
  ⟨_, lookup_pushEntry_self m t e, List.mem_append_right _ (List.mem_singleton_self e)⟩

theorem memKeyMap_pushEntry_mono (m : KeyMap) (t t' : String) (e x : KeyEntry)
    (h : MemKeyMap m t' x) : MemKeyMap (pushEntry m t e) t' x := by
  obtain ⟨lst, hl, hx⟩ := h
  by_cases ht : t' = t
  · subst ht
    refine ⟨_, lookup_pushEntry_self m t' e, ?_⟩
    rw [hl]
    exact List.mem_append_left _ hx
  · exact ⟨lst, by rw [lookup_pushEntry_ne m t t' e ht, hl], hx⟩

theorem memKeyMap_pushUtxos_mono (k : String) (utxos : List WocUTXO) :
    ∀ (m : KeyMap) (t' : String) (x : KeyEntry),
      MemKeyMap m t' x → MemKeyMap (pushUtxos m k utxos) t' x := by
  induction utxos with
  | nil => intro m t' x h; simpa [pushUtxos] using h
  | cons u rest ih =>
    intro m t' x h
    have h1 := memKeyMap_pushEntry_mono m u.tx_hash t' ⟨u.tx_pos, k, u.value⟩ x h
    simpa [pushUtxos] using ih _ t' x h1

theorem memKeyMap_pushUtxos_self (k : String) (utxos : List WocUTXO) :
    ∀ (m : KeyMap) (u : WocUTXO), u ∈ utxos →
      MemKeyMap (pushUtxos m k utxos) u.tx_hash ⟨u.tx_pos, k, u.value⟩ := by
  induction utxos with
  | nil => intro m u h; exact absurd h (List.not_mem_nil u)
  | cons v rest ih =>
    intro m u h
    rcases List.mem_cons.mp h with rfl | h
    · have h1 := memKeyMap_pushEntry_self m u.tx_hash ⟨u.tx_pos, k, u.value⟩
      simpa [pushUtxos] using memKeyMap_pushUtxos_mono k rest _ _ _ h1
    · simpa [pushUtxos] using ih (pushEntry m v.tx_hash ⟨v.tx_pos, k, v.value⟩) u h

theorem memKeyMap_buildFold_mono (derive : String → String) :
    ∀ (results : List Result) (m : KeyMap) (t : String) (x : KeyEntry),
      MemKeyMap m t x → MemKeyMap (results.foldl (buildKeyMapStep derive) m) t x := by
  intro results
  induction results with
  | nil => intro m t x h; simpa using h
  | cons r rest ih =>
    intro m t x h
    have h1 : MemKeyMap (buildKeyMapStep derive m r) t x :=
      memKeyMap_pushUtxos_mono _ _ _ _ _ h
    simpa using ih _ t x h1

theorem memKeyMap_buildFold_self (derive : String → String) :
    ∀ (results : List Result) (m : KeyMap) (res : Result), res ∈ results →
      ∀ u ∈ res.utxos,
        MemKeyMap (results.foldl (buildKeyMapStep derive) m) u.tx_hash
          ⟨u.tx_pos, derive (fullPath res.pathPrefix res.index), u.value⟩ := by
  intro results
  induction results with
  | nil => intro m res hres; exact absurd hres (List.not_mem_nil res)
  | cons r rest ih =>
    intro m res hres u hu
    rcases List.mem_cons.mp hres with rfl | hres
    · have h1 := memKeyMap_pushUtxos_self
        (derive (fullPath res.pathPrefix res.index)) res.utxos m u hu
      have h2 := memKeyMap_buildFold_mono derive rest (buildKeyMapStep derive m res)
        u.tx_hash ⟨u.tx_pos, derive (fullPath res.pathPrefix res.index), u.value⟩
        (by simpa [buildKeyMapStep] using h1)
      simpa using h2
    · simpa using ih (buildKeyMapStep derive m r) res hres u hu

/-- C6: the Key-for-Input Map is independent of the current session/UI path
(the `uiPathPrefix` parameter is never consulted), and for every entry of the
Registry — whatever mixture of stored path prefixes it holds — and every
unspent output under that entry, the map holds, under that output's source
txid, a record with that output's vout and value whose key was derived from
THAT entry's own stored path prefix and stored index. -/
theorem keymap_uses_stored_paths (derive : String → String) (p1 p2 : String)
    (results : List Result) :
    buildKeyMap derive p1 results = buildKeyMap derive p2 results
    ∧ ∀ res ∈ results, ∀ u ∈ res.utxos,
      ∃ lst, lookupKeyMap (buildKeyMap derive p1 results) u.tx_hash = some lst
        ∧ (⟨u.tx_pos, derive (fullPath res.pathPrefix res.index), u.value⟩ : KeyEntry) ∈ lst := by
  refine ⟨rfl, ?_⟩
  intro res hres u hu
  exact memKeyMap_buildFold_self derive results [] res hres u hu

/-- Witness for C6 on a mixed-prefix registry: the produced map is the same
under two different session prefixes, and the record for entryP1's output was
keyed with the path assembled from its own stored prefix `m/1` and index 0. -/
theorem keymap_uses_stored_paths_witness :
    buildKeyMap (fun s => s) "ui1" [entryP1, entryP2]
      = buildKeyMap (fun s => s) "ui2" [entryP1, entryP2]
    ∧ ∃ lst, lookupKeyMap (buildKeyMap (fun s => s) "ui1" [entryP1, entryP2]) "tX" = some lst
        ∧ (⟨0, fullPath "m/1" 0, 5⟩ : KeyEntry) ∈ lst := by
  have h := keymap_uses_stored_paths (fun s => s) "ui1" "ui2" [entryP1, entryP2]
  refine ⟨h.1, ?_⟩
  have h2 := h.2 entryP1 (by simp) ⟨0, "tX", 5, false⟩ (by simp [entryP1])
  simpa [entryP1] using h2

/-! ## C7 and C10: registry merge across rescans -/

theorem mem_foldl_insertUnique :
    ∀ (l acc : List String) (x : String),
      x ∈ l.foldl insertUnique acc ↔ x ∈ acc ∨ x ∈ l := by
  intro l
  induction l with
  | nil => intro acc x; simp
  | cons a l ih =>
    intro acc x
    rw [List.foldl_cons, ih]
    by_cases h : a ∈ acc
    · simp only [insertUnique, if_pos h]
      constructor
      · rintro (hx | hx)
        · exact Or.inl hx
        · exact Or.inr (List.mem_cons_of_mem _ hx)
      · rintro (hx | hx)
        · exact Or.inl hx
        · rcases List.mem_cons.mp hx with rfl | hx
          · exact Or.inl h
          · exact Or.inr hx
    · simp only [insertUnique, if_neg h, List.mem_append, List.mem_singleton, List.mem_cons]
      tauto

theorem nodup_foldl_insertUnique :
    ∀ (l acc : List String), acc.Nodup → (l.foldl insertUnique acc).Nodup := by
  intro l
  induction l with
  | nil => intro acc h; simpa using h
  | cons a l ih =>
    intro acc h
    rw [List.foldl_cons]
    apply ih
    by_cases ha : a ∈ acc
    · simpa [insertUnique, ha] using h
    · rw [insertUnique, if_neg ha]
      refine List.Nodup.append h (List.nodup_singleton a) ?_
      intro x hx hxa
      rcases List.mem_singleton.mp hxa with rfl
      exact ha hx

theorem mem_jsSetOfList (l : List String) (x : String) :
    x ∈ jsSetOfList l ↔ x ∈ l := by
  rw [jsSetOfList, mem_foldl_insertUnique]
  simp

theorem nodup_jsSetOfList (l : List String) : (jsSetOfList l).Nodup :=
  nodup_foldl_insertUnique l [] List.nodup_nil

theorem find?_address_eq_none (l : List Result) (a : String)
    (h : a ∉ l.map Result.address) :
    l.find? (fun r => r.address == a) = none := by
  rw [List.find?_eq_none]
  intro x hx
  simp only [beq_iff_eq]
  intro hax
  exact h (List.mem_map.mpr ⟨x, hx, hax⟩)

theorem mergePick_address (old new : List Result) (a : String) (r : Result)
    (h : mergePick old new a = some r) : r.address = a := by
  rw [mergePick] at h
  cases ho : old.find? (fun r => r.address == a) with
  | some r' =>
    rw [ho] at h
    simp only [Option.orElse] at h
    obtain rfl : r' = r := by simpa using h
    simpa using List.find?_some ho
  | none =>
    rw [ho] at h
    simp only [Option.orElse] at h
    simpa using List.find?_some h

theorem mergePick_mem (old new : List Result) (a : String) (r : Result)
    (h : mergePick old new a = some r) : r ∈ old ∨ r ∈ new := by
  rw [mergePick] at h
  cases ho : old.find? (fun r => r.address == a) with
  | some r' =>
    rw [ho] at h
    simp only [Option.orElse] at h
    obtain rfl : r' = r := by simpa using h
    exact Or.inl (List.mem_of_find?_eq_some ho)
  | none =>
    rw [ho] at h
    simp only [Option.orElse] at h
    exact Or.inr (List.mem_of_find?_eq_some h)

theorem find?_filterMap_mergePick_of_not_mem (old new : List Result) :
    ∀ (s : List String) (a : String), a ∉ s →
      (s.filterMap (mergePick old new)).find? (fun r => r.address == a) = none := by
  intro s
  induction s with
  | nil => intro a _; simp
  | cons b s ih =>
    intro a ha
    have hab : a ≠ b := fun h => ha (h ▸ List.mem_cons_self b s)
    have hs : a ∉ s := fun h => ha (List.mem_cons_of_mem _ h)
    cases hb : mergePick old new b with
    | none =>
      simp only [List.filterMap_cons, hb]
      exact ih a hs
    | some r =>
      have hr : r.address = b := mergePick_address old new b r hb
      have hneg : ¬ ((r.address == a) = true) := by
        simp only [beq_iff_eq, hr]
        exact Ne.symm hab
      simp only [List.filterMap_cons, hb]
      rw [List.find?_cons_of_neg (p := fun x : Result => x.address == a) _ hneg]
      exact ih a hs

theorem find?_filterMap_mergePick_of_mem (old new : List Result) :
    ∀ (s : List String) (a : String), s.Nodup → a ∈ s →
      (s.filterMap (mergePick old new)).find? (fun r => r.address == a)
        = mergePick old new a := by
  intro s
  induction s with
  | nil => intro a _ ha; exact absurd ha (List.not_mem_nil a)
  | cons b s ih =>
    intro a hnd ha
    obtain ⟨hb_not, hnd'⟩ := List.nodup_cons.mp hnd
    rcases List.mem_cons.mp ha with rfl | ha'
    · cases hb : mergePick old new a with
      | none =>
        simp only [List.filterMap_cons, hb]
        exact find?_filterMap_mergePick_of_not_mem old new s a hb_not
      | some r =>
        have hr : r.address = a := mergePick_address old new a r hb
        simp only [List.filterMap_cons, hb]
        rw [List.find?_cons_of_pos (p := fun x : Result => x.address == a) _ (by simp [hr])]
    · have hab : a ≠ b := fun h => hb_not (h ▸ ha')
      cases hb : mergePick old new b with
      | none =>
        simp only [List.filterMap_cons, hb]
        exact ih a hnd' ha'
      | some r =>
        have hr : r.address = b := mergePick_address old new b r hb
        have hneg : ¬ ((r.address == a) = true) := by
          simp only [beq_iff_eq, hr]
          exact Ne.symm hab
        simp only [List.filterMap_cons, hb]
        rw [List.find?_cons_of_neg (p := fun x : Result => x.address == a) _ hneg]
        exact ih a hnd' ha'

theorem mergePick_of_mem_old (old new : List Result) (a : String)
    (h : a ∈ old.map Result.address) :
    mergePick old new a = old.find? (fun r => r.address == a) := by
  obtain ⟨r, hr, ha⟩ := List.mem_map.mp h
  have hsome : (old.find? (fun x => x.address == a)).isSome := by
    rw [List.find?_isSome]
    exact ⟨r, hr, by simp [ha]⟩
  obtain ⟨x, hx⟩ := Option.isSome_iff_exists.mp hsome
  rw [mergePick, hx]
  simp [Option.orElse]

theorem mergePick_of_not_mem_old (old new : List Result) (a : String)
    (h : a ∉ old.map Result.address) :
    mergePick old new a = new.find? (fun r => r.address == a) := by
  rw [mergePick, find?_address_eq_none old a h]
  simp [Option.orElse]

/-- C7: re-invoking the scanner unions new entries into the existing Registry
by address identity — every address present in the prior Registry is still
present after the merge, and the entry found for such an address in the merged
Registry is exactly the one found in the prior Registry (never a new scan's
replacement). -/
theorem rescan_unions_registry (old new : List Result) (a : String)
    (h : a ∈ old.map Result.address) :
    a ∈ (mergeResults old new).map Result.address
    ∧ (mergeResults old new).find? (fun r => r.address == a)
      = old.find? (fun r => r.address == a) := by
  have hset : a ∈ jsSetOfList (old.map Result.address ++ new.map Result.address) := by
    rw [mem_jsSetOfList]
    exact List.mem_append_left _ h
  have hnd := nodup_jsSetOfList (old.map Result.address ++ new.map Result.address)
  have hfind : (mergeResults old new).find? (fun r => r.address == a)
      = mergePick old new a := by
    simp only [mergeResults]
    exact find?_filterMap_mergePick_of_mem old new _ a hnd hset
  have hpick := mergePick_of_mem_old old new a h
  refine ⟨?_, hfind.trans hpick⟩
  have hsome : (old.find? (fun x => x.address == a)).isSome := by
    rw [List.find?_isSome]
    obtain ⟨r, hr, ha⟩ := List.mem_map.mp h
    exact ⟨r, hr, by simp [ha]⟩
  obtain ⟨x, hx⟩ := Option.isSome_iff_exists.mp hsome
  have hmx : (mergeResults old new).find? (fun r => r.address == a) = some x := by
    rw [hfind, hpick, hx]
  have hxm := List.mem_of_find?_eq_some hmx
  have hxa : x.address = a := by simpa using List.find?_some hmx
  exact List.mem_map.mpr ⟨x, hxm, hxa⟩

/-- C10: when a rescan re-discovers an address that already has a Registry
entry, the merged Registry keeps the previously stored entry (the lookup for
that address yields exactly the old entry, so index, path prefix, balance and
UTXO list are all unchanged) and the new scan's entry for it is discarded;
every merged entry comes from the old or the new list, and an address not
previously present gets the newly scanned entry. -/
theorem rescan_keeps_prior_entries (old new : List Result) (a : String) :
    (∀ r ∈ mergeResults old new, r ∈ old ∨ r ∈ new)
    ∧ (a ∈ old.map Result.address →
      (mergeResults old new).find? (fun r => r.address == a)
        = old.find? (fun r => r.address == a))
    ∧ (a ∉ old.map Result.address →
      (mergeResults old new).find? (fun r => r.address == a)
        = new.find? (fun r => r.address == a)) := by
  refine ⟨?_, ?_, ?_⟩
  · intro r hr
    simp only [mergeResults] at hr
    obtain ⟨b, -, hb⟩ := List.mem_filterMap.mp hr
    exact mergePick_mem old new b r hb
  · intro h
    have hset : a ∈ jsSetOfList (old.map Result.address ++ new.map Result.address) := by
      rw [mem_jsSetOfList]
      exact List.mem_append_left _ h
    have hfind : (mergeResults old new).find? (fun r => r.address == a)
        = mergePick old new a := by
      simp only [mergeResults]
      exact find?_filterMap_mergePick_of_mem old new _ a (nodup_jsSetOfList _) hset
    exact hfind.trans (mergePick_of_mem_old old new a h)
  · intro h
    by_cases hs : a ∈ jsSetOfList (old.map Result.address ++ new.map Result.address)
    · have hfind : (mergeResults old new).find? (fun r => r.address == a)
          = mergePick old new a := by
        simp only [mergeResults]
        exact find?_filterMap_mergePick_of_mem old new _ a (nodup_jsSetOfList _) hs
      exact hfind.trans (mergePick_of_not_mem_old old new a h)
    · have hnew : a ∉ new.map Result.address := by
        intro hn
        exact hs (by rw [mem_jsSetOfList]; exact List.mem_append_right _ hn)
      have hfind : (mergeResults old new).find? (fun r => r.address == a) = none := by
        simp only [mergeResults]
        exact find?_filterMap_mergePick_of_not_mem old new _ a hs
      rw [hfind, find?_address_eq_none new a hnew]

/-- Witness for C7: merging a rescan that re-found `addrA` (with different
data) keeps `addrA` present and bound to the prior entry. -/
theorem rescan_unions_registry_witness :
    "addrA" ∈ ([oldEntry].map Result.address)
    ∧ "addrA" ∈ (mergeResults [oldEntry] [newEntryA, newEntryB]).map Result.address
    ∧ (mergeResults [oldEntry] [newEntryA, newEntryB]).find? (fun r => r.address == "addrA")
      = [oldEntry].find? (fun r => r.address == "addrA") := by
  have h := rescan_unions_registry [oldEntry] [newEntryA, newEntryB] "addrA"
    (by simp [oldEntry])
  exact ⟨by simp [oldEntry], h.1, h.2⟩

/-- Witness for C10: after the merge, `addrA` still maps to the untouched old
entry (the rescan's conflicting entry is discarded) and the new address
`addrB` maps to its newly scanned entry. -/
theorem rescan_keeps_prior_entries_witness :
    (mergeResults [oldEntry] [newEntryA, newEntryB]).find? (fun r => r.address == "addrA")
      = some oldEntry
    ∧ (mergeResults [oldEntry] [newEntryA, newEntryB]).find? (fun r => r.address == "addrB")
      = some newEntryB := by
  have h1 := (rescan_keeps_prior_entries [oldEntry] [newEntryA, newEntryB] "addrA").2.1
    (by simp [oldEntry])
  have h2 := (rescan_keeps_prior_entries [oldEntry] [newEntryA, newEntryB] "addrB").2.2
    (by simp [oldEntry])
  exact ⟨h1.trans (by rfl), h2.trans (by rfl)⟩

/-! ## C4: post-sweep registry clearing -/

theorem createIngestTx_cases (env : SweepEnv) (derive : String → String)
    (uiPathPrefix : String) (results : List Result) :
    (∃ t, createIngestTx env derive uiPathPrefix results = (SweepOutcome.success t, []))
    ∨ ((createIngestTx env derive uiPathPrefix results).1.isSuccess = false
       ∧ (createIngestTx env derive uiPathPrefix results).2 = results) := by
  simp only [createIngestTx]
  repeat' split
  all_goals first
    | exact Or.inl ⟨_, rfl⟩
    | exact Or.inr ⟨rfl, rfl⟩

/-- C4: `createIngestTx` clears the Registry exactly on a confirmed broadcast
— on success the new `results` state is empty, and on every other outcome
(early return for an unreachable custodian or an empty registry, or a caught
error from BEEF fetching, `createAction`, the fee gate, key resolution or
broadcast) the `results` state is exactly its pre-sweep value, with no partial
clearing. -/
theorem sweep_registry_clearing (env : SweepEnv) (derive : String → String)
    (uiPathPrefix : String) (results : List Result) :
    ((createIngestTx env derive uiPathPrefix results).1.isSuccess = true →
      (createIngestTx env derive uiPathPrefix results).2 = [])
    ∧ ((createIngestTx env derive uiPathPrefix results).1.isSuccess = false →
      (createIngestTx env derive uiPathPrefix results).2 = results) := by
  rcases createIngestTx_cases env derive uiPathPrefix results with ⟨t, ht⟩ | ⟨h1, h2⟩
  · constructor
    · intro _
      rw [ht]
    · intro hfalse
      rw [ht] at hfalse
      simp [SweepOutcome.isSuccess] at hfalse
  · constructor
    · intro htrue
      rw [h1] at htrue
      cases htrue
    · intro _
      exact h2

/-- Witness for C4: with the concrete registry `[sweepEntry]`, a successful
run clears the registry and a run whose broadcast fails leaves it unchanged. -/
theorem sweep_registry_clearing_witness :
    (createIngestTx envSweepOk (fun s => s) "m" [sweepEntry]).2 = []
    ∧ (createIngestTx envSweepFail (fun s => s) "m" [sweepEntry]).2 = [sweepEntry] := by
  have h1 := sweep_registry_clearing envSweepOk (fun s => s) "m" [sweepEntry]
  have h2 := sweep_registry_clearing envSweepFail (fun s => s) "m" [sweepEntry]
  exact ⟨h1.1 (by decide), h2.2 (by decide)⟩

/-! ## C5: gap-limit termination of the scanner -/

theorem scanLoop_step_rec (env : ScanEnv) (p : String) (gap f index cu : Nat)
    (acc : List Result) (hcu : cu < gap) (hu : isUsed env p index = true)
    (r : Result) (hrec : recordAt env p index = some r) :
    scanLoop env p gap (f + 1) index cu acc
      = scanLoop env p gap f (index + 1) 0 (acc ++ [r]) := by
  simp [scanLoop, hcu, hu, hrec]

theorem scanLoop_step_norec (env : ScanEnv) (p : String) (gap f index cu : Nat)
    (acc : List Result) (hcu : cu < gap) (hu : isUsed env p index = true)
    (hrec : recordAt env p index = none) :
    scanLoop env p gap (f + 1) index cu acc
      = scanLoop env p gap f (index + 1) 0 acc := by
  simp [scanLoop, hcu, hu, hrec]

theorem scanLoop_step_unused (env : ScanEnv) (p : String) (gap f index cu : Nat)
    (acc : List Result) (hcu : cu < gap) (hu : isUsed env p index = false) :
    scanLoop env p gap (f + 1) index cu acc
      = scanLoop env p gap f (index + 1) (cu + 1) acc := by
  simp [scanLoop, hcu, hu]

theorem scanLoop_tail (env : ScanEnv) (p : String) (gap L : Nat)
    (hafter : ∀ i, L < i → i ≤ L + gap → isUsed env p i = false) :
    ∀ (m j : Nat) (acc : List Result) (fuel : Nat), j + m = gap → m ≤ fuel →
      scanLoop env p gap fuel (L + 1 + j) j acc = (L + 1 + gap, acc) := by
  intro m
  induction m with
  | zero =>
    intro j acc fuel hj hfuel
    obtain rfl : j = gap := by omega
    cases fuel with
    | zero => simp [scanLoop]
    | succ f => simp [scanLoop]
  | succ m ih =>
    intro j acc fuel hj hfuel
    cases fuel with
    | zero => omega
    | succ f =>
      have hj' : j < gap := by omega
      have hu : isUsed env p (L + 1 + j) = false := hafter _ (by omega) (by omega)
      rw [scanLoop_step_unused env p gap f (L + 1 + j) j acc hj' hu]
      have heq : L + 1 + j + 1 = L + 1 + (j + 1) := by omega
      rw [heq]
      exact ih (j + 1) acc f (by omega) (by omega)

theorem scanLoop_reach (env : ScanEnv) (p : String) (gap startOffset L : Nat)
    (husedL : isUsed env p L = true)
    (hafter : ∀ i, L < i → i ≤ L + gap → isUsed env p i = false)
    (hnorun : ∀ k, startOffset + k ≤ L → unusedRun env p startOffset k < gap) :
    ∀ (d k : Nat) (acc : List Result) (fuel : Nat),
      startOffset + k + d = L → d + 1 + gap ≤ fuel →
      scanLoop env p gap fuel (startOffset + k) (unusedRun env p startOffset k) acc
        = (L + 1 + gap,
           acc ++ (List.range' (startOffset + k) (d + 1)).filterMap (recordAt env p)) := by
  intro d
  induction d with
  | zero =>
    intro k acc fuel hk hfuel
    cases fuel with
    | zero => omega
    | succ f =>
      have hL : startOffset + k = L := by omega
      have hcu : unusedRun env p startOffset k < gap := hnorun k (by omega)
      rw [hL]
      cases hrec : recordAt env p L with
      | some r =>
        rw [scanLoop_step_rec env p gap f L _ acc hcu husedL r hrec]
        have htail : scanLoop env p gap f (L + 1) 0 (acc ++ [r]) = (L + 1 + gap, acc ++ [r]) :=
          scanLoop_tail env p gap L hafter gap 0 (acc ++ [r]) f (by omega) (by omega)
        rw [htail]
        simp [List.range'_one, List.filterMap_cons, hrec]
      | none =>
        rw [scanLoop_step_norec env p gap f L _ acc hcu husedL hrec]
        have htail : scanLoop env p gap f (L + 1) 0 acc = (L + 1 + gap, acc) :=
          scanLoop_tail env p gap L hafter gap 0 acc f (by omega) (by omega)
        rw [htail]
        simp [List.range'_one, List.filterMap_cons, hrec]
  | succ d ih =>
    intro k acc fuel hk hfuel
    cases fuel with
    | zero => omega
    | succ f =>
      have hcu : unusedRun env p startOffset k < gap := hnorun k (by omega)
      have hrange : List.range' (startOffset + k) (d + 1 + 1)
          = (startOffset + k) :: List.range' (startOffset + k + 1) (d + 1) :=
        List.range'_succ _ _ _
      cases hu : isUsed env p (startOffset + k) with
      | true =>
        have hrun1 : unusedRun env p startOffset (k + 1) = 0 := by
          simp [unusedRun, hu]
        cases hrec : recordAt env p (startOffset + k) with
        | some r =>
          rw [scanLoop_step_rec env p gap f _ _ acc hcu hu r hrec]
          have ihh := ih (k + 1) (acc ++ [r]) f (by omega) (by omega)
          rw [hrun1] at ihh
          rw [hrange, List.filterMap_cons, hrec]
          rw [show acc ++ (r :: (List.range' (startOffset + k + 1) (d + 1)).filterMap (recordAt env p))
              = (acc ++ [r]) ++ (List.range' (startOffset + k + 1) (d + 1)).filterMap (recordAt env p)
            by simp]
          exact ihh
        | none =>
          rw [scanLoop_step_norec env p gap f _ _ acc hcu hu hrec]
          have ihh := ih (k + 1) acc f (by omega) (by omega)
          rw [hrun1] at ihh
          rw [hrange, List.filterMap_cons, hrec]
          exact ihh
      | false =>
        have hrun1 : unusedRun env p startOffset (k + 1)
            = unusedRun env p startOffset k + 1 := by
          simp [unusedRun, hu]
        have hrec : recordAt env p (startOffset + k) = none := by
          simp [recordAt, hu]
        rw [scanLoop_step_unused env p gap f _ _ acc hcu hu]
        have ihh := ih (k + 1) acc f (by omega) (by omega)
        rw [hrun1] at ihh
        rw [hrange, List.filterMap_cons, hrec]
        exact ihh

/-- C5 counterexample: with gap limit N = 2 and an address-usage sequence
whose last (and only) used index is L = 2, followed by arbitrarily many unused
addresses, the scan from offset 0 terminates with cursor 2 — not L + 1 + N = 5
— and records nothing (the used address at index 2, which has a non-empty
unspent list, is never reached), because the claim ignores that a gap-length
unused run BEFORE the last used address already terminates the loop. -/
theorem gap_limit_counterexample :
    isUsed envC5 "m" 2 = true
    ∧ isUsed envC5 "m" 0 = false
    ∧ isUsed envC5 "m" 1 = false
    ∧ isUsed envC5 "m" 3 = false
    ∧ isUsed envC5 "m" 4 = false
    ∧ (recordAt envC5 "m" 2).isSome = true
    ∧ scanLoop envC5 "m" 2 10 0 0 [] = (2, [])
    ∧ 2 ≠ 2 + 1 + 2 := by
  decide

/-- C5 amended: IF additionally no run of `gap` consecutive unused addresses
occurs before the last used index L (and the scan starts at or before L), then
an error-free scan whose last used address sits at L, followed by at least
`gap` unused addresses, terminates with the index cursor exactly L + 1 + gap,
and the recorded entries are exactly those of the used addresses up to L whose
unspent-output list is non-empty, in index order. -/
theorem gap_limit_termination (env : ScanEnv) (p : String)
    (gap startOffset L fuel : Nat)
    (hstart : startOffset ≤ L)
    (husedL : isUsed env p L = true)
    (hafter : ∀ i, L < i → i ≤ L + gap → isUsed env p i = false)
    (hnorun : ∀ k, startOffset + k ≤ L → unusedRun env p startOffset k < gap)
    (hfuel : L + 1 + gap ≤ startOffset + fuel) :
    scanLoop env p gap fuel startOffset 0 []
      = (L + 1 + gap,
         (List.range' startOffset (L + 1 - startOffset)).filterMap (recordAt env p)) := by
  have h := scanLoop_reach env p gap startOffset L husedL hafter hnorun
      (L - startOffset) 0 [] fuel (by omega) (by omega)
  have hd : L - startOffset + 1 = L + 1 - startOffset := by omega
  rw [hd] at h
  simpa using h

/-- Witness for C5 (amended): on the concrete oracle with used indices 0 and 1
and gap limit 2, the scan terminates at cursor 4 = 1 + 1 + 2 having recorded
exactly the entries of indices 0 and 1. -/
theorem gap_limit_termination_witness :
    scanLoop envW "m" 2 6 0 0 []
      = (4, (List.range' 0 2).filterMap (recordAt envW "m")) := by
  have h := gap_limit_termination envW "m" 2 0 1 6
    (by omega)
    (by decide)
    (by
      intro i h1 h2
      interval_cases i <;> decide)
    (by
      intro k hk
      have hk1 : k ≤ 1 := by omega
      interval_cases k <;> decide)
    (by omega)
  simpa using h

end MnemonicSweep
